import Mathlib

/-!
# notify_slack: configuration loading, channel resolution and the streaming run

A shallow embedding of `config/config.go` and `cli/cli.go`.

* Go strings are Lean strings; the only string operations the code performs
  are the comparison with the empty string and assignment.
* Go errors are `Except String _` / `Option String` values; a run-time panic is
  an explicit outcome.
* Everything the two files call but do not define (the file system, the TOML
  parser, the flag parser, the Slack client) is a field of `Env`, so every
  theorem quantifies over all behaviours of those collaborators.
-/

namespace NotifySlack

/-! ## config/config.go -/

/-- Dynamic values a go-toml tree hands back from `Get`: a sub-table (`*toml.Tree`),
an array of tables (`[]*toml.Tree`), or a leaf (`string`, `int64`, `float64`, `bool`,
a date, an array of leaves). -/
inductive TomlValue where
  | str (s : String)
  | int (n : Int)
  | float (repr : String)
  | bool (b : Bool)
  | datetime (repr : String)
  | array (xs : List TomlValue)
  | tree (entries : List (String × TomlValue))
  | treeArray (ts : List (List (String × TomlValue)))

/-- A `*toml.Tree`: the entries of one table, by key. -/
abbrev Tree := List (String × TomlValue)

/-- Method `(*toml.Tree).Get(key)` for an undotted key: the value stored under the key,
or `none` for Go's `nil` when the key is absent. -/
def Tree.Get (t : Tree) (key : String) : Option TomlValue :=
  match t with
  | [] => none
  | (k, v) :: rest => if k = key then some v else Tree.Get rest key

/-- The checked assertion `v, ok := x.(string)`: `some v` when `ok`. -/
def assertString (x : Option TomlValue) : Option String :=
  match x with
  | some (TomlValue.str s) => some s
  | _ => none

/-- The unchecked assertion `x.(*toml.Tree)`: `none` stands for the panic. -/
def assertTree (x : Option TomlValue) : Option Tree :=
  match x with
  | some (TomlValue.tree entries) => some entries
  | _ => none

/-- The configuration record. `config.go` declares `SlackURL`, `Channel`, `Username`
and `IconEmoji`; `cli.go` also reads and writes `PrimaryChannel`, `SnippetChannel`,
`Token` and `Duration` (a `time.Duration`, in nanoseconds) on the same record. -/
structure Config where
  SlackURL : String
  Channel : String
  Username : String
  IconEmoji : String
  PrimaryChannel : String
  SnippetChannel : String
  Token : String
  Duration : Int
  deriving DecidableEq, Repr

/-- Function `config.NewConfig`: every field at its zero value. -/
def NewConfig : Config :=
  { SlackURL := "", Channel := "", Username := "", IconEmoji := "",
    PrimaryChannel := "", SnippetChannel := "", Token := "", Duration := 0 }

/-- A `context.Context` as the code uses it: `context.Background()`, or the context
made by `context.WithCancel`, with whether `cancel()` has been called. -/
inductive Context where
  | background
  | withCancel (cancelled : Bool)
  deriving DecidableEq, Repr

/-- The fields of `slack.PostTextParam` that `Run` sets. -/
structure PostTextParam where
  Channel : String
  Username : String
  IconEmoji : String
  Text : String
  deriving DecidableEq, Repr

/-- The fields of `slack.PostFileParam` that `uploadSnippet` sets. -/
structure PostFileParam where
  Channel : String
  Filename : String
  Content : String
  Filetype : String
  deriving DecidableEq, Repr

/-- What the two callbacks of `Run` do to the outside, in program order: a call of
`PostText` with its context, parameter and result (`none` is Go's `nil` error), and
the send on the `done` channel. -/
inductive Effect where
  | postText (ctx : Context) (param : PostTextParam) (result : Option String)
  | sendDone
  deriving DecidableEq, Repr

/-- The values `flags.Parse` leaves in the flag variables, and `flags.Args()`. -/
structure Flags where
  channel : String
  slackURL : String
  token : String
  username : String
  iconEmoji : String
  interval : Int
  c : String
  filename : String
  filetype : String
  version : Bool
  args : List String
  deriving DecidableEq, Repr

/-- The collaborators of the two source files. A Go error result is `Except String _`,
or `Option String` when only the error is used. `postText` sees the effects made so
far, so that its result may change from one call to the next. -/
structure Env where
  readFile : String → Except String String
  stat : String → Option String
  homeDir : Except String String
  loadBytes : String → Except String Tree
  parseFlags : List String → Except String Flags
  newClient : String → Option String
  postFile : Context → String → PostFileParam → Option String
  postText : List Effect → Context → PostTextParam → Option String

/-- How a call ends: normal return without error, return of an error, or a panic. -/
inductive Outcome (α : Type) where
  | ok (a : α)
  | error (e : String)
  | panic
  deriving DecidableEq, Repr

/-- Method `(*Config).LoadTOML`: `ok c'` is the return of `nil` with the receiver updated to `c'`. -/
def LoadTOML (env : Env) (c : Config) (filename : String) : Outcome Config :=
  match env.readFile filename with
  | .error err => .error err
  | .ok b =>
    match env.loadBytes b with
    | .error err => .error err
    | .ok config =>
      match assertTree (config.Get "slack") with
      | none => .panic
      | some slackConfig =>
        let c1 :=
          if c.SlackURL = "" then
            match assertString (slackConfig.Get "url") with
            | some slackURL => { c with SlackURL := slackURL }
            | none => c
          else c
        let c2 :=
          if c1.Channel = "" then
            match assertString (slackConfig.Get "channel") with
            | some channel => { c1 with Channel := channel }
            | none => c1
          else c1
        let c3 :=
          if c2.Username = "" then
            match assertString (slackConfig.Get "username") with
            | some username => { c2 with Username := username }
            | none => c2
          else c2
        let c4 :=
          if c3.IconEmoji = "" then
            match assertString (slackConfig.Get "icon_emoji") with
            | some iconEmoji => { c3 with IconEmoji := iconEmoji }
            | none => c3
          else c3
        .ok c4

/-- Function `config.fileExists`. -/
def fileExists (env : Env) (filename : String) : Bool :=
  (env.stat filename).isNone

/-- Function `config.LoadTOMLFilename`. -/
def LoadTOMLFilename (env : Env) (filename : String) : String :=
  if filename ≠ "" then filename
  else
    let fromHome : Option String :=
      match env.homeDir with
      | .ok homeDir =>
        let tomlFile := homeDir ++ "/etc/notify_slack.toml"
        if fileExists env tomlFile then some tomlFile else none
      | .error _ => none
    match fromHome with
    | some tomlFile => tomlFile
    | none =>
      let tomlFile := "/etc/notify_slack.toml"
      if fileExists env tomlFile then tomlFile else ""

/-! ## cli/cli.go: constants, channel resolution, the upload path -/

/-- Constant `ExitCodeOK`. -/
def ExitCodeOK : Int := 0

/-- Constant `ExitCodeParseFlagError`. -/
def ExitCodeParseFlagError : Int := 1

/-- Constant `ExitCodeFail`. -/
def ExitCodeFail : Int := 1

/-- What `uploadSnippet` does to the outside, in program order. -/
inductive UploadEffect where
  | stat (filename : String)
  | readFile (filename : String)
  | postFile (ctx : Context) (token : String) (param : PostFileParam)
  deriving DecidableEq, Repr

/-- The error `uploadSnippet` returns (`none` is `nil`) and the effects it made. -/
structure UploadResult where
  err : Option String
  effects : List UploadEffect
  deriving DecidableEq, Repr

/-- The local `channel` of `uploadSnippet` after its two fallbacks (lines 167-173). -/
def uploadChannel (conf : Config) : String :=
  let channel := conf.PrimaryChannel
  let channel := if channel = "" then conf.SnippetChannel else channel
  let channel := if channel = "" then conf.Channel else channel
  channel

/-- Method `(*CLI).uploadSnippet`. The message of `errors.Wrapf(err, "%s does not exist",
filename)` is the formatted text, a colon and the cause. -/
def uploadSnippet (env : Env) (conf : Config) (ctx : Context)
    (filename uploadFilename filetype : String) : UploadResult :=
  let channel := uploadChannel conf
  if channel = "" then
    { err := some "must specify channel for uploading to snippet", effects := [] }
  else
    match env.stat filename with
    | some err =>
      { err := some (filename ++ " does not exist: " ++ err),
        effects := [UploadEffect.stat filename] }
    | none =>
      match env.readFile filename with
      | .error err =>
        { err := some err,
          effects := [UploadEffect.stat filename, UploadEffect.readFile filename] }
      | .ok content =>
        let uploadFilename := if uploadFilename = "" then filename else uploadFilename
        let param : PostFileParam :=
          { Channel := channel, Filename := uploadFilename, Content := content,
            Filetype := filetype }
        { err := env.postFile ctx conf.Token param,
          effects := [UploadEffect.stat filename, UploadEffect.readFile filename,
            UploadEffect.postFile ctx conf.Token param] }

/-- The local `channel` of `Run` after its fallback (lines 124-127). -/
def streamChannel (conf : Config) : String :=
  let channel := conf.PrimaryChannel
  let channel := if channel = "" then conf.Channel else channel
  channel

/-- The `param` that `Run` builds for the streaming path (lines 129-133); `Text` is at
its zero value until a callback sets it. -/
def streamParam (conf : Config) : PostTextParam :=
  { Channel := streamChannel conf, Username := conf.Username,
    IconEmoji := conf.IconEmoji, Text := "" }

/-- Spec-side reading of a destination resolution: the first non-empty string of a
list of candidates, the empty string when there is none. -/
def firstNonEmpty : List String → String
  | [] => ""
  | s :: rest => if s = "" then firstNonEmpty rest else s

/-- Where the sequential part of `Run` (lines 40-115) ends: a return with an exit
code, a panic, or the streaming section (line 117) with the configuration in force. -/
inductive Front where
  | exit (code : Int)
  | panic
  | stream (conf : Config)
  deriving DecidableEq, Repr

/-- Lines 40-115 of `(*CLI).Run`. The writes to `errStream` are left out. -/
def RunFront (env : Env) (args : List String) : Front :=
  match args with
  | [] => Front.panic
  | _ :: rest =>
    match env.parseFlags rest with
    | .error _ => Front.exit ExitCodeParseFlagError
    | .ok fl =>
      let conf : Config :=
        { NewConfig with
          PrimaryChannel := fl.channel, SlackURL := fl.slackURL, Token := fl.token,
          Username := fl.username, IconEmoji := fl.iconEmoji, Duration := fl.interval }
      if fl.version then Front.exit ExitCodeOK
      else
        let argv := fl.args
        let filename := match argv with
          | [a] => a
          | _ => ""
        let tomlFile := LoadTOMLFilename env fl.c
        let loaded : Outcome Config :=
          if tomlFile ≠ "" then LoadTOML env conf tomlFile else Outcome.ok conf
        match loaded with
        | .error _ => Front.exit ExitCodeFail
        | .panic => Front.panic
        | .ok conf =>
          if conf.SlackURL = "" then Front.exit ExitCodeFail
          else
            match env.newClient conf.SlackURL with
            | some _ => Front.exit ExitCodeFail
            | none =>
              if filename ≠ "" then
                if conf.Token = "" then Front.exit ExitCodeFail
                else
                  match (uploadSnippet env conf Context.background filename
                      fl.filename fl.filetype).err with
                  | some _ => Front.exit ExitCodeFail
                  | none => Front.exit ExitCodeOK
              else Front.stream conf

/-! ## cli/cli.go: the two callbacks -/

/-- The state the callbacks share: the `param` record both closures capture by
pointer, and the effects made so far. -/
structure Shared where
  param : PostTextParam
  log : List Effect
  deriving DecidableEq, Repr

/-- The closure `flushCallback` (lines 135-138): it ignores its context argument,
stores `output` in `param.Text` and calls `PostText` with `context.Background()`. -/
def flushCallback (env : Env) (_ctx : Context) (output : String) (w : Shared) :
    Option String × Shared :=
  let param := { w.param with Text := output }
  let result := env.postText w.log Context.background param
  (result, { param := param, log := w.log ++ [Effect.postText Context.background param result] })

/-- The deferred function of `doneCallback` (lines 143-145): the send on `done`. -/
def doneDeferred (w : Shared) : Shared :=
  { w with log := w.log ++ [Effect.sendDone] }

/-- The closure `doneCallback` (lines 142-148): the operand of `return` is evaluated
first, the deferred send runs next, and the evaluated value is what is returned. -/
def doneCallback (env : Env) (ctx : Context) (output : String) (w : Shared) :
    Option String × Shared :=
  let r := flushCallback env ctx output w
  (r.1, doneDeferred r.2)

/-! ## The streaming run: `Run` from line 117 on, with the scheduler -/

/-- Program points of the goroutine that executes `Run`, from line 153 on: before
`ex.Start`, at the `select`, before `cancel()`, at `<-done`, and after the return. -/
inductive MainPc where
  | start
  | select
  | cancel
  | recvDone
  | returned (code : Int)
  deriving DecidableEq, Repr

/-- Modelled from the spec: the run states of the Flush Scheduler of the `throttle`
package (section 3, RunState). `draining` spans the execution of the completion
callback and holds the value that callback is about to return. -/
inductive Phase where
  | idle
  | running
  | draining (ret : Option String)
  | stopped (ret : Option String)
  deriving DecidableEq, Repr

/-- A call the scheduler made to one of the two callbacks, with its payload. -/
inductive Call where
  | flush (payload : String)
  | done (payload : String)
  deriving DecidableEq, Repr

/-- The payload of a call. -/
def Call.payload : Call → String
  | Call.flush p => p
  | Call.done p => p

/-- The state of a streaming run. `input` holds the units of `inputStream` not read
yet, `out` what the tee reader wrote to `outStream`, `buf` the scheduler's batch,
`eof` whether the scheduler met end-of-stream (which makes `ex.Wait()` ready),
`cancelled` whether `cancel()` was called. -/
structure Sys where
  pc : MainPc
  phase : Phase
  input : List String
  out : List String
  buf : String
  eof : Bool
  cancelled : Bool
  shared : Shared
  calls : List Call
  deriving DecidableEq, Repr

/-- The steps of a streaming run. `start`, `signal`, `wait`, `cancel` are steps of
`Run` (lines 153-159); `read`, `endOfInput`, `tick`, `complete` are steps of the
scheduler; `handoff` is the rendezvous of the deferred send of `doneCallback` with
the receive at line 161, after which `Run` returns. -/
inductive Action where
  | start
  | signal
  | wait
  | cancel
  | read
  | endOfInput
  | tick
  | complete
  | handoff
  deriving DecidableEq, Repr

/-- The context `ctx` of line 151 as the scheduler sees it. -/
def Sys.ctx (s : Sys) : Context := Context.withCancel s.cancelled

/-- The state at line 153: `param` built, nothing read, the scheduler not started. -/
def initSys (conf : Config) (input : List String) : Sys :=
  { pc := MainPc.start, phase := Phase.idle, input := input, out := [], buf := "",
    eof := false, cancelled := false,
    shared := { param := streamParam conf, log := [] }, calls := [] }

/-- Modelled from the spec: the Flush Scheduler and Batch Accumulator of the `throttle`
package (`throttle.NewExec`, `Exec.Start`, `Exec.Wait`), after sections 4.1 to 4.3
and 8 of the specification. A unit of input goes through the tee to
`outStream` and is appended to the batch; a tick drains the batch and passes it to
the flush callback unless it is empty; end-of-stream makes the termination signal
ready; once end-of-stream or cancellation has occurred the completion callback is
invoked, once, with what remains in the batch, even if empty. -/
def schedStep (env : Env) (s : Sys) : Action → Option Sys
  | Action.read =>
    match s.phase, s.input with
    | Phase.running, u :: rest =>
      some { s with input := rest, out := s.out ++ [u], buf := s.buf ++ u }
    | _, _ => none
  | Action.endOfInput =>
    match s.phase, s.input, s.eof with
    | Phase.running, [], false => some { s with eof := true }
    | _, _, _ => none
  | Action.tick =>
    match s.phase with
    | Phase.running =>
      if s.buf = "" then some s
      else
        let r := flushCallback env s.ctx s.buf s.shared
        some { s with buf := "", shared := r.2, calls := s.calls ++ [Call.flush s.buf] }
    | _ => none
  | Action.complete =>
    match s.phase with
    | Phase.running =>
      if s.eof ∨ s.cancelled then
        let r := flushCallback env s.ctx s.buf s.shared
        some { s with phase := Phase.draining r.1, buf := "", shared := r.2,
                      calls := s.calls ++ [Call.done s.buf] }
      else none
    | _ => none
  | _ => none

/-- One step of a streaming run; `none` when the step is not enabled. The steps of
`Run` follow lines 153-163: `ex.Start`, the `select` over `exitC` and `ex.Wait()`,
`cancel()`, and the receive on the unbuffered `done`, which needs `doneCallback` to
be at its deferred send. -/
def step (env : Env) (s : Sys) : Action → Option Sys
  | Action.start =>
    match s.pc, s.phase with
    | MainPc.start, Phase.idle => some { s with pc := MainPc.select, phase := Phase.running }
    | _, _ => none
  | Action.signal =>
    match s.pc with
    | MainPc.select => some { s with pc := MainPc.cancel }
    | _ => none
  | Action.wait =>
    match s.pc, s.eof with
    | MainPc.select, true => some { s with pc := MainPc.cancel }
    | _, _ => none
  | Action.cancel =>
    match s.pc with
    | MainPc.cancel => some { s with pc := MainPc.recvDone, cancelled := true }
    | _ => none
  | Action.handoff =>
    match s.pc, s.phase with
    | MainPc.recvDone, Phase.draining ret =>
      some { s with pc := MainPc.returned ExitCodeOK, phase := Phase.stopped ret,
                    shared := doneDeferred s.shared }
    | _, _ => none
  | a => schedStep env s a

/-- The state after a sequence of steps, `none` if one of them is not enabled. -/
def exec (env : Env) (s : Sys) : List Action → Option Sys
  | [] => some s
  | a :: rest =>
    match step env s a with
    | some s' => exec env s' rest
    | none => none

/-- How an execution of `Run` ends: a return before the streaming section, a return
at line 163 with the final state of the streaming run, a panic, or no return (the
steps given do not take `Run` to its return). -/
inductive RunEnd where
  | early (code : Int)
  | streamed (code : Int) (final : Sys)
  | panicked
  | notReturned
  deriving DecidableEq, Repr

/-- The method `(*CLI).Run` on arguments `args`, with the units `input` on
`inputStream` and the steps `script` taken from line 153 on. -/
def Run (env : Env) (args : List String) (input : List String) (script : List Action) :
    RunEnd :=
  match RunFront env args with
  | Front.exit code => RunEnd.early code
  | Front.panic => RunEnd.panicked
  | Front.stream conf =>
    match exec env (initSys conf input) script with
    | some s =>
      match s.pc with
      | MainPc.returned code => RunEnd.streamed code s
      | _ => RunEnd.notReturned
    | none => RunEnd.notReturned

/-! ## Spec-side definitions and concrete environments -/

/-- Concatenation of texts, in order. -/
def concat : List String → String
  | [] => ""
  | x :: xs => x ++ concat xs

/-- The payloads of a list of callback invocations, in order. -/
def payloads (calls : List Call) : List String := calls.map Call.payload

/-- Spec-side reading of the precedence rule for one field: a value present before
the call stays; an empty field takes the string the file holds under the key and
stays empty when the key holds no string. -/
def FieldPrecedence (before after : String) (entry : Option TomlValue) : Prop :=
  (before ≠ "" → after = before) ∧
  (before = "" → ∀ v, entry = some (TomlValue.str v) → after = v) ∧
  (before = "" → (∀ v, entry ≠ some (TomlValue.str v)) → after = "")

/-- The value one of the four guarded assignments of `LoadTOML` leaves in a field
that held `before`, for the entry of the `slack` table under the field's key. -/
def mergeField (before : String) (entry : Option TomlValue) : String :=
  if before = "" then
    match assertString entry with
    | some v => v
    | none => before
  else before

/-- Whether a `PostText` effect failed. -/
def Effect.failed : Effect → Bool
  | Effect.postText _ _ (some _) => true
  | _ => false

/-- Flag values for the command line `notify_slack -slack-url URL`. -/
def urlFlags : Flags :=
  { channel := "", slackURL := "https://hooks.slack.example/services/T0", token := "",
    username := "", iconEmoji := "", interval := 1000000000, c := "", filename := "",
    filetype := "", version := false, args := [] }

/-- An environment without configuration files, in which every post succeeds. -/
def plainEnv : Env :=
  { readFile := fun _ => Except.error "no such file or directory",
    stat := fun _ => some "no such file or directory",
    homeDir := Except.error "no home directory",
    loadBytes := fun _ => Except.error "unexpected end of input",
    parseFlags := fun args =>
      if args = ["-slack-url", "https://hooks.slack.example/services/T0"] then Except.ok urlFlags
      else Except.error "flag provided but not defined",
    newClient := fun _ => none,
    postFile := fun _ _ _ => none,
    postText := fun _ _ _ => none }

/-- The environment `plainEnv` with a Slack endpoint that fails every post. -/
def failingEnv : Env :=
  { plainEnv with
    postFile := fun _ _ _ => some "status code: 500",
    postText := fun _ _ _ => some "status code: 500" }

/-- The command line `notify_slack -slack-url URL`: no channel, no file argument. -/
def urlArgs : List String :=
  ["notify_slack", "-slack-url", "https://hooks.slack.example/services/T0"]

/-- The configuration in force after parsing `urlArgs` without a configuration file. -/
def urlConf : Config :=
  { NewConfig with SlackURL := "https://hooks.slack.example/services/T0",
                   Duration := 1000000000 }

/-- A run that reads one line, meets end-of-stream and shuts down. -/
def eofScript : List Action :=
  [Action.start, Action.read, Action.endOfInput, Action.wait, Action.cancel,
   Action.complete, Action.handoff]

/-- A run that flushes one line on a tick, reads a second one and is interrupted. -/
def tickScript : List Action :=
  [Action.start, Action.read, Action.tick, Action.read, Action.signal, Action.cancel,
   Action.complete, Action.handoff]

/-- The final state of a run of `eofScript` on the input `a\n` in which the post of
the completion callback has the result `result`. -/
def eofFinal (result : Option String) : Sys :=
  { pc := MainPc.returned ExitCodeOK, phase := Phase.stopped result, input := [],
    out := ["a\n"], buf := "", eof := true, cancelled := true,
    shared :=
      { param := { Channel := "", Username := "", IconEmoji := "", Text := "a\n" },
        log := [Effect.postText Context.background
                  { Channel := "", Username := "", IconEmoji := "", Text := "a\n" } result,
                Effect.sendDone] },
    calls := [Call.done "a\n"] }

/-- The final state of a run of `tickScript` on the input `a\n`, `b\n`, `c\n` in the
environment `plainEnv`. -/
def tickFinal : Sys :=
  { pc := MainPc.returned ExitCodeOK, phase := Phase.stopped none, input := ["c\n"],
    out := ["a\n", "b\n"], buf := "", eof := false, cancelled := true,
    shared :=
      { param := { Channel := "", Username := "", IconEmoji := "", Text := "b\n" },
        log := [Effect.postText Context.background
                  { Channel := "", Username := "", IconEmoji := "", Text := "a\n" } none,
                Effect.postText Context.background
                  { Channel := "", Username := "", IconEmoji := "", Text := "b\n" } none,
                Effect.sendDone] },
    calls := [Call.flush "a\n", Call.done "b\n"] }

/-- A run that flushes one line on a tick, reads a second one, meets end-of-stream and
shuts down. -/
def flushScript : List Action :=
  [Action.start, Action.read, Action.tick, Action.read, Action.endOfInput, Action.wait,
   Action.cancel, Action.complete, Action.handoff]

/-- The final state of a run of `flushScript` on the input `a\n`, `b\n` in the
environment `plainEnv`. -/
def flushFinal : Sys :=
  { pc := MainPc.returned ExitCodeOK, phase := Phase.stopped none, input := [],
    out := ["a\n", "b\n"], buf := "", eof := true, cancelled := true,
    shared :=
      { param := { Channel := "", Username := "", IconEmoji := "", Text := "b\n" },
        log := [Effect.postText Context.background
                  { Channel := "", Username := "", IconEmoji := "", Text := "a\n" } none,
                Effect.postText Context.background
                  { Channel := "", Username := "", IconEmoji := "", Text := "b\n" } none,
                Effect.sendDone] },
    calls := [Call.flush "a\n", Call.done "b\n"] }

/-- A `slack` table with a string `url`, a string `channel`, an integer `username`
and no `icon_emoji`. -/
def demoSlack : Tree :=
  [("url", TomlValue.str "https://hooks.slack.example/services/T1"),
   ("channel", TomlValue.str "#general"),
   ("username", TomlValue.int 7)]

/-- The parsed content of the configuration file of `tomlEnv`. -/
def demoTree : Tree := [("slack", TomlValue.tree demoSlack)]

/-- A configuration in which only `Channel` is set. -/
def opsConf : Config := { NewConfig with Channel := "#ops" }

/-- An environment with a configuration file `/etc/notify_slack.toml` and a file
`report.txt`, in which every post succeeds. The file `bad.toml` parses to a document
whose `slack` entry is a string. -/
def tomlEnv : Env :=
  { readFile := fun f =>
      if f = "/etc/notify_slack.toml" then Except.ok "demo"
      else if f = "bad.toml" then Except.ok "bad"
      else if f = "report.txt" then Except.ok "all good"
      else Except.error "no such file or directory",
    stat := fun f =>
      if f = "/etc/notify_slack.toml" ∨ f = "bad.toml" ∨ f = "report.txt" then none
      else some "no such file or directory",
    homeDir := Except.error "no home directory",
    loadBytes := fun b =>
      if b = "demo" then Except.ok demoTree
      else if b = "bad" then Except.ok [("slack", TomlValue.str "oops")]
      else Except.error "unexpected end of input",
    parseFlags := fun _ => Except.ok { urlFlags with slackURL := "" },
    newClient := fun _ => none,
    postFile := fun _ _ _ => none,
    postText := fun _ _ _ => none }

/-- A configuration with a snippet channel and a general channel but no primary one. -/
def snippetConf : Config :=
  { NewConfig with SlackURL := "https://hooks.slack.example/services/T1",
                   SnippetChannel := "#snippets", Channel := "#general", Token := "xoxp-1" }

/-- The step function as a relation, one constructor per enabled step; equivalent to
`step` (see `step_iff_Step`) and used to reason by cases. -/
inductive Step (env : Env) : Sys → Action → Sys → Prop where
  | start (s : Sys) (hpc : s.pc = MainPc.start) (hph : s.phase = Phase.idle) :
      Step env s Action.start { s with pc := MainPc.select, phase := Phase.running }
  | signal (s : Sys) (hpc : s.pc = MainPc.select) :
      Step env s Action.signal { s with pc := MainPc.cancel }
  | wait (s : Sys) (hpc : s.pc = MainPc.select) (heof : s.eof = true) :
      Step env s Action.wait { s with pc := MainPc.cancel }
  | cancel (s : Sys) (hpc : s.pc = MainPc.cancel) :
      Step env s Action.cancel { s with pc := MainPc.recvDone, cancelled := true }
  | handoff (s : Sys) (ret : Option String) (hpc : s.pc = MainPc.recvDone)
      (hph : s.phase = Phase.draining ret) :
      Step env s Action.handoff
        { s with pc := MainPc.returned ExitCodeOK, phase := Phase.stopped ret,
                 shared := doneDeferred s.shared }
  | read (s : Sys) (u : String) (rest : List String) (hph : s.phase = Phase.running)
      (hin : s.input = u :: rest) :
      Step env s Action.read
        { s with input := rest, out := s.out ++ [u], buf := s.buf ++ u }
  | endOfInput (s : Sys) (hph : s.phase = Phase.running) (hin : s.input = [])
      (heof : s.eof = false) :
      Step env s Action.endOfInput { s with eof := true }
  | tickEmpty (s : Sys) (hph : s.phase = Phase.running) (hbuf : s.buf = "") :
      Step env s Action.tick s
  | tickFlush (s : Sys) (hph : s.phase = Phase.running) (hbuf : s.buf ≠ "") :
      Step env s Action.tick
        { s with buf := "", shared := (flushCallback env s.ctx s.buf s.shared).2,
                 calls := s.calls ++ [Call.flush s.buf] }
  | complete (s : Sys) (hph : s.phase = Phase.running)
      (hgo : s.eof = true ∨ s.cancelled = true) :
      Step env s Action.complete
        { s with phase := Phase.draining (flushCallback env s.ctx s.buf s.shared).1,
                 buf := "", shared := (flushCallback env s.ctx s.buf s.shared).2,
                 calls := s.calls ++ [Call.done s.buf] }

/-- The two events raced by the `select` of `Run`. -/
def isRace (a : Action) : Prop := a = Action.signal ∨ a = Action.wait

/-- What the steps taken so far must contain, in order, for `Run` to be at a given
program point. -/
def PcTrace (tr : List Action) : MainPc → Prop
  | MainPc.start => True
  | MainPc.select => List.Sublist [Action.start] tr
  | MainPc.cancel => ∃ race, isRace race ∧ List.Sublist [Action.start, race] tr
  | MainPc.recvDone =>
    ∃ race, isRace race ∧ List.Sublist [Action.start, race, Action.cancel] tr
  | MainPc.returned code =>
    code = ExitCodeOK ∧ ∃ race, isRace race ∧
      List.Sublist [Action.start, race, Action.cancel, Action.handoff] tr

/-- Whether the scheduler has stopped. -/
def Phase.isStopped : Phase → Bool
  | Phase.stopped _ => true
  | _ => false

/-- Whether `Run` has returned. -/
def MainPc.isReturned : MainPc → Bool
  | MainPc.returned _ => true
  | _ => false

/-- Whether the completion callback has been invoked. -/
def Phase.completing : Phase → Bool
  | Phase.draining _ => true
  | Phase.stopped _ => true
  | _ => false

/-- Relation between the program point of `Run`, the scheduler's phase, the steps
taken and the sends on `done`, kept by every step. -/
def ControlInv (tr : List Action) (s : Sys) : Prop :=
  (s.pc = MainPc.start → s.phase = Phase.idle) ∧
  (s.pc.isReturned = s.phase.isStopped) ∧
  (s.pc = MainPc.recvDone ∨ s.pc.isReturned = true → s.cancelled = true) ∧
  (s.shared.log.count Effect.sendDone = if s.pc.isReturned then 1 else 0) ∧
  (tr.count Action.handoff = if s.pc.isReturned then 1 else 0)

/-- The text of a `PostText` effect. -/
def Effect.text : Effect → Option String
  | Effect.postText _ p _ => some p.Text
  | Effect.sendDone => none

/-- The texts posted to Slack, in order. -/
def postedTexts (log : List Effect) : List String := log.filterMap Effect.text

/-- All calls in the list are calls of the flush callback. -/
def flushesOnly (calls : List Call) : Prop := ∀ c ∈ calls, ∃ p, c = Call.flush p

/-- Relation between the input, what was read, the batch and the payloads handed to
the callbacks, kept by every step of a run on the input `input0`. -/
def DataInv (input0 : List String) (s : Sys) : Prop :=
  (s.out ++ s.input = input0) ∧
  (concat (payloads s.calls) ++ s.buf = concat s.out) ∧
  (s.eof = true → s.input = []) ∧
  (s.phase.completing = true → s.buf = "") ∧
  (s.phase.completing = false → flushesOnly s.calls) ∧
  (s.phase.completing = true →
    ∃ fl p, s.calls = fl ++ [Call.done p] ∧ flushesOnly fl) ∧
  (postedTexts s.shared.log = payloads s.calls)

/-! ## Theorems: configuration loading -/

theorem assertTree_eq_some (x : Option TomlValue) (t : Tree) :
    assertTree x = some t ↔ x = some (TomlValue.tree t) := by
  unfold assertTree
  split
  · rename_i entries
    constructor
    · intro h; cases h; rfl
    · intro h; cases h; rfl
  · rename_i hne
    constructor
    · intro h; cases h
    · intro h; exact absurd h (hne t)

theorem assertString_eq_some (x : Option TomlValue) (v : String) :
    assertString x = some v ↔ x = some (TomlValue.str v) := by
  unfold assertString
  split
  · rename_i w
    constructor
    · intro h; cases h; rfl
    · intro h; cases h; rfl
  · rename_i hne
    constructor
    · intro h; cases h
    · intro h; exact absurd h (hne v)

theorem mergeField_precedence (before : String) (entry : Option TomlValue) :
    FieldPrecedence before (mergeField before entry) entry := by
  unfold FieldPrecedence mergeField
  refine ⟨fun h => by simp [h], fun h v hv => ?_, fun h hno => ?_⟩
  · have := (assertString_eq_some entry v).2 hv
    simp [h, this]
  · cases hs : assertString entry with
    | none => simp [h]
    | some w => exact absurd ((assertString_eq_some entry w).1 hs) (hno w)

theorem mergeField_idem (a : String) (v : Option TomlValue) :
    mergeField (mergeField a v) v = mergeField a v := by
  unfold mergeField
  by_cases h : a = ""
  · cases hv : assertString v with
    | none => simp [h]
    | some w =>
      by_cases hw : w = ""
      · simp [h, hw]
      · simp [h, hw]
  · simp [h]

theorem LoadTOML_eq (env : Env) (c : Config) (filename b : String) (config slackConfig : Tree)
    (hread : env.readFile filename = Except.ok b) (hparse : env.loadBytes b = Except.ok config)
    (hslack : config.Get "slack" = some (TomlValue.tree slackConfig)) :
    LoadTOML env c filename = Outcome.ok
      { c with
        SlackURL := mergeField c.SlackURL (slackConfig.Get "url"),
        Channel := mergeField c.Channel (slackConfig.Get "channel"),
        Username := mergeField c.Username (slackConfig.Get "username"),
        IconEmoji := mergeField c.IconEmoji (slackConfig.Get "icon_emoji") } := by
  rcases c with ⟨u, ch, un, ic, pc, sc, tk, d⟩
  simp only [LoadTOML, hread, hparse, hslack, assertTree, mergeField]
  cases assertString (Tree.Get slackConfig "url") <;>
  cases assertString (Tree.Get slackConfig "channel") <;>
  cases assertString (Tree.Get slackConfig "username") <;>
  cases assertString (Tree.Get slackConfig "icon_emoji") <;>
  by_cases h1 : u = "" <;> by_cases h2 : ch = "" <;>
  by_cases h3 : un = "" <;> by_cases h4 : ic = "" <;>
  simp [h1, h2, h3, h4]

/-- C9: for a readable file that parses to a document with a `slack` table, `LoadTOML`
returns `nil` and leaves a Config in which each of `SlackURL`, `Channel`, `Username`,
`IconEmoji` obeys the precedence rule (unchanged when non-empty before; otherwise the
string under `url`, `channel`, `username`, `icon_emoji`, or empty when that key holds
no string), the other fields are untouched, and loading the same file again returns
`nil` with the same Config. -/
theorem LoadTOML_precedence (env : Env) (c : Config) (filename b : String)
    (config slackConfig : Tree)
    (hread : env.readFile filename = Except.ok b)
    (hparse : env.loadBytes b = Except.ok config)
    (hslack : config.Get "slack" = some (TomlValue.tree slackConfig)) :
    ∃ c1 : Config, LoadTOML env c filename = Outcome.ok c1 ∧
      FieldPrecedence c.SlackURL c1.SlackURL (slackConfig.Get "url") ∧
      FieldPrecedence c.Channel c1.Channel (slackConfig.Get "channel") ∧
      FieldPrecedence c.Username c1.Username (slackConfig.Get "username") ∧
      FieldPrecedence c.IconEmoji c1.IconEmoji (slackConfig.Get "icon_emoji") ∧
      c1.PrimaryChannel = c.PrimaryChannel ∧ c1.SnippetChannel = c.SnippetChannel ∧
      c1.Token = c.Token ∧ c1.Duration = c.Duration ∧
      LoadTOML env c1 filename = Outcome.ok c1 := by
  refine ⟨_, LoadTOML_eq env c filename b config slackConfig hread hparse hslack,
    mergeField_precedence _ _, mergeField_precedence _ _, mergeField_precedence _ _,
    mergeField_precedence _ _, rfl, rfl, rfl, rfl, ?_⟩
  rw [LoadTOML_eq env _ filename b config slackConfig hread hparse hslack]
  simp only [mergeField_idem]

theorem LoadTOML_precedence_witness :
    ∃ c1 : Config, LoadTOML tomlEnv opsConf "/etc/notify_slack.toml" = Outcome.ok c1 ∧
      FieldPrecedence opsConf.SlackURL c1.SlackURL (demoSlack.Get "url") ∧
      FieldPrecedence opsConf.Channel c1.Channel (demoSlack.Get "channel") ∧
      FieldPrecedence opsConf.Username c1.Username (demoSlack.Get "username") ∧
      FieldPrecedence opsConf.IconEmoji c1.IconEmoji (demoSlack.Get "icon_emoji") ∧
      c1.PrimaryChannel = opsConf.PrimaryChannel ∧
      c1.SnippetChannel = opsConf.SnippetChannel ∧
      c1.Token = opsConf.Token ∧ c1.Duration = opsConf.Duration ∧
      LoadTOML tomlEnv c1 "/etc/notify_slack.toml" = Outcome.ok c1 :=
  LoadTOML_precedence tomlEnv opsConf "/etc/notify_slack.toml" "demo" demoTree demoSlack
    rfl rfl rfl

/-- C10: for a file that can be read and parsed, `LoadTOML` returns `nil` exactly when
the top-level `slack` entry is a table; when `slack` is absent or holds anything
else the call panics, and in no such case does it return an error. -/
theorem LoadTOML_nil_iff_slack_table (env : Env) (c : Config) (filename b : String)
    (config : Tree)
    (hread : env.readFile filename = Except.ok b)
    (hparse : env.loadBytes b = Except.ok config) :
    ((∃ c1, LoadTOML env c filename = Outcome.ok c1) ↔
        ∃ entries, config.Get "slack" = some (TomlValue.tree entries)) ∧
    ((¬ ∃ entries, config.Get "slack" = some (TomlValue.tree entries)) →
        LoadTOML env c filename = Outcome.panic) ∧
    (config.Get "slack" = none → LoadTOML env c filename = Outcome.panic) ∧
    (∀ e, LoadTOML env c filename ≠ Outcome.error e) := by
  have hpanic : (¬ ∃ entries, config.Get "slack" = some (TomlValue.tree entries)) →
      LoadTOML env c filename = Outcome.panic := by
    intro hno
    have : assertTree (config.Get "slack") = none := by
      cases h : assertTree (config.Get "slack") with
      | none => rfl
      | some t => exact absurd ⟨t, (assertTree_eq_some _ t).1 h⟩ hno
    simp only [LoadTOML, hread, hparse, this]
  refine ⟨⟨?_, ?_⟩, hpanic, ?_, ?_⟩
  · rintro ⟨c1, h1⟩
    by_contra hno
    rw [hpanic hno] at h1
    cases h1
  · rintro ⟨entries, he⟩
    exact ⟨_, LoadTOML_eq env c filename b config entries hread hparse he⟩
  · intro hnone
    apply hpanic
    rintro ⟨entries, he⟩
    rw [hnone] at he
    cases he
  · intro e he
    by_cases hex : ∃ entries, config.Get "slack" = some (TomlValue.tree entries)
    · obtain ⟨entries, h⟩ := hex
      rw [LoadTOML_eq env c filename b config entries hread hparse h] at he
      cases he
    · rw [hpanic hex] at he
      cases he

theorem LoadTOML_nil_iff_slack_table_witness :
    ((∃ c1, LoadTOML tomlEnv NewConfig "bad.toml" = Outcome.ok c1) ↔
        ∃ entries, Tree.Get [("slack", TomlValue.str "oops")] "slack"
          = some (TomlValue.tree entries)) ∧
    ((¬ ∃ entries, Tree.Get [("slack", TomlValue.str "oops")] "slack"
          = some (TomlValue.tree entries)) →
        LoadTOML tomlEnv NewConfig "bad.toml" = Outcome.panic) ∧
    (Tree.Get [("slack", TomlValue.str "oops")] "slack" = none →
        LoadTOML tomlEnv NewConfig "bad.toml" = Outcome.panic) ∧
    (∀ e, LoadTOML tomlEnv NewConfig "bad.toml" ≠ Outcome.error e) :=
  LoadTOML_nil_iff_slack_table tomlEnv NewConfig "bad.toml" "bad"
    [("slack", TomlValue.str "oops")] rfl rfl

/-! ## Theorems: channel resolution and the upload path -/

theorem uploadChannel_eq_firstNonEmpty (conf : Config) :
    uploadChannel conf
      = firstNonEmpty [conf.PrimaryChannel, conf.SnippetChannel, conf.Channel] := by
  unfold uploadChannel firstNonEmpty firstNonEmpty firstNonEmpty firstNonEmpty
  by_cases h1 : conf.PrimaryChannel = "" <;> by_cases h2 : conf.SnippetChannel = "" <;>
    by_cases h3 : conf.Channel = "" <;> simp [h1, h2, h3]

theorem uploadChannel_eq_empty_iff (conf : Config) :
    uploadChannel conf = "" ↔
      conf.PrimaryChannel = "" ∧ conf.SnippetChannel = "" ∧ conf.Channel = "" := by
  unfold uploadChannel
  by_cases h1 : conf.PrimaryChannel = "" <;> by_cases h2 : conf.SnippetChannel = "" <;>
    by_cases h3 : conf.Channel = "" <;> simp [h1, h2, h3]

theorem uploadSnippet_postFile_channel (env : Env) (conf : Config) (ctx ctx1 : Context)
    (filename uploadFilename filetype token : String) (param : PostFileParam)
    (h : UploadEffect.postFile ctx1 token param
      ∈ (uploadSnippet env conf ctx filename uploadFilename filetype).effects) :
    param.Channel = uploadChannel conf ∧ uploadChannel conf ≠ "" := by
  unfold uploadSnippet at h
  by_cases hc : uploadChannel conf = ""
  · simp [hc] at h
  · simp only [hc, if_false] at h
    cases hs : env.stat filename with
    | some e => simp [hs] at h
    | none =>
      cases hr : env.readFile filename with
      | error e => simp [hs, hr] at h
      | ok content =>
        simp [hs, hr] at h
        obtain ⟨-, -, hp⟩ := h
        subst hp
        exact ⟨rfl, hc⟩

/-- C8: `uploadSnippet` returns the error "must specify channel for uploading to
snippet" without any file-system or Slack effect exactly when `PrimaryChannel`,
`SnippetChannel` and `Channel` are all empty; and every `PostFile` call it makes carries
as channel the first non-empty of the three, in that order. -/
theorem uploadSnippet_channel_resolution (env : Env) (conf : Config) (ctx : Context)
    (filename uploadFilename filetype : String) :
    (uploadSnippet env conf ctx filename uploadFilename filetype
        = { err := some "must specify channel for uploading to snippet", effects := [] } ↔
      conf.PrimaryChannel = "" ∧ conf.SnippetChannel = "" ∧ conf.Channel = "") ∧
    ((uploadSnippet env conf ctx filename uploadFilename filetype).effects = [] ↔
      conf.PrimaryChannel = "" ∧ conf.SnippetChannel = "" ∧ conf.Channel = "") ∧
    (∀ ctx1 token param, UploadEffect.postFile ctx1 token param
        ∈ (uploadSnippet env conf ctx filename uploadFilename filetype).effects →
      param.Channel
        = firstNonEmpty [conf.PrimaryChannel, conf.SnippetChannel, conf.Channel]) := by
  have heff : (uploadSnippet env conf ctx filename uploadFilename filetype).effects = [] ↔
      conf.PrimaryChannel = "" ∧ conf.SnippetChannel = "" ∧ conf.Channel = "" := by
    rw [← uploadChannel_eq_empty_iff]
    unfold uploadSnippet
    by_cases hc : uploadChannel conf = ""
    · simp [hc]
    · simp only [hc, if_false, iff_false]
      cases hs : env.stat filename with
      | some e => simp
      | none =>
        cases hr : env.readFile filename with
        | error e => simp
        | ok content => simp
  refine ⟨⟨fun h => heff.1 (by rw [h]), fun h => ?_⟩, heff, ?_⟩
  · have hc := (uploadChannel_eq_empty_iff conf).2 h
    simp [uploadSnippet, hc]
  · intro ctx1 token param hmem
    rw [← uploadChannel_eq_firstNonEmpty]
    exact (uploadSnippet_postFile_channel env conf ctx ctx1 filename uploadFilename
      filetype token param hmem).1

/-- C7, as stated, fails: with an empty `PrimaryChannel`, `SnippetChannel = "#snippets"`
and `Channel = "#general"`, `uploadSnippet` posts the file to `#snippets` while the
streaming path of `Run` addresses `#general`. -/
theorem upload_channel_differs_from_stream_channel :
    UploadEffect.postFile Context.background "xoxp-1"
        { Channel := "#snippets", Filename := "report.txt", Content := "all good",
          Filetype := "" }
      ∈ (uploadSnippet tomlEnv snippetConf Context.background "report.txt" "" "").effects ∧
    (streamParam snippetConf).Channel = "#general" ∧
    ("#snippets" : String) ≠ "#general" := by
  decide

/-- C7, amended: whenever `uploadSnippet` reaches `PostFile`, the channel in
`PostFileParam` equals the channel in the streaming `PostTextParam` provided
`PrimaryChannel` is non-empty or `SnippetChannel` is empty; when `PrimaryChannel` is
empty and `SnippetChannel` is not, the upload goes to `SnippetChannel` and the
streaming path uses `Channel`. -/
theorem upload_channel_eq_stream_channel (env : Env) (conf : Config) (ctx ctx1 : Context)
    (filename uploadFilename filetype token : String) (param : PostFileParam)
    (hpost : UploadEffect.postFile ctx1 token param
      ∈ (uploadSnippet env conf ctx filename uploadFilename filetype).effects) :
    ((conf.PrimaryChannel ≠ "" ∨ conf.SnippetChannel = "") →
      param.Channel = (streamParam conf).Channel) ∧
    ((conf.PrimaryChannel = "" ∧ conf.SnippetChannel ≠ "") →
      param.Channel = conf.SnippetChannel ∧ (streamParam conf).Channel = conf.Channel) := by
  have hch := (uploadSnippet_postFile_channel env conf ctx ctx1 filename uploadFilename
    filetype token param hpost).1
  rw [hch]
  unfold uploadChannel streamParam streamChannel
  constructor
  · rintro (h | h)
    · simp [h]
    · by_cases h1 : conf.PrimaryChannel = "" <;> simp [h, h1]
  · rintro ⟨h1, h2⟩
    simp [h1, h2]

theorem upload_channel_eq_stream_channel_witness :
    ((snippetConf.PrimaryChannel ≠ "" ∨ snippetConf.SnippetChannel = "") →
      ("#snippets" : String) = (streamParam snippetConf).Channel) ∧
    ((snippetConf.PrimaryChannel = "" ∧ snippetConf.SnippetChannel ≠ "") →
      ("#snippets" : String) = snippetConf.SnippetChannel ∧
      (streamParam snippetConf).Channel = snippetConf.Channel) :=
  upload_channel_eq_stream_channel tomlEnv snippetConf Context.background
    Context.background "report.txt" "" "" "xoxp-1"
    { Channel := "#snippets", Filename := "report.txt", Content := "all good",
      Filetype := "" } (by decide)

/-! ## Theorems: the callbacks -/

/-- C6: for every context and text, `flushCallback` adds exactly one `PostText` call to
the effects, made with `context.Background()` and a parameter whose `Text` is the text
given, whose `Channel` is `PrimaryChannel` if non-empty and `Channel` otherwise, and whose
`Username` and `IconEmoji` are those of the configuration; it returns that call's result;
and neither the effects nor the result depend on the context passed in, cancelled or
not. The shared `param` may hold any earlier `Text`, the log any earlier effects. -/
theorem flushCallback_posts_once (env : Env) (conf : Config) (ctx : Context)
    (output earlier : String) (log : List Effect) :
    let w : Shared := { param := { streamParam conf with Text := earlier }, log := log }
    let p : PostTextParam :=
      { Channel := if conf.PrimaryChannel = "" then conf.Channel else conf.PrimaryChannel,
        Username := conf.Username, IconEmoji := conf.IconEmoji, Text := output }
    (flushCallback env ctx output w).2.log
        = log ++ [Effect.postText Context.background p
                    (env.postText log Context.background p)] ∧
      (flushCallback env ctx output w).1 = env.postText log Context.background p ∧
      (flushCallback env ctx output w).2.param = p ∧
      (∀ ctx2, flushCallback env ctx2 output w = flushCallback env ctx output w) ∧
      flushCallback env (Context.withCancel true) output w
        = flushCallback env Context.background output w := by
  intro w p
  have hp : ({ w.param with Text := output } : PostTextParam) = p := by
    simp only [w, p, streamParam, streamChannel]
  refine ⟨?_, ?_, ?_, fun _ => rfl, rfl⟩
  · simp only [flushCallback, hp]
  · simp only [flushCallback, hp]
  · simp only [flushCallback, hp]

/-- C2: for every invocation of `doneCallback`, the effects it adds are the `PostText`
call of the wrapped `flushCallback` followed by one send on `done`, in this order and
nothing else, whatever the result of the post (success or failure); and the value it
returns is the result of that post. -/
theorem doneCallback_signals_after_post (env : Env) (ctx : Context) (output : String)
    (w : Shared) :
    let p : PostTextParam := { w.param with Text := output }
    let r := env.postText w.log Context.background p
    (doneCallback env ctx output w).2.log
        = w.log ++ [Effect.postText Context.background p r, Effect.sendDone] ∧
      (doneCallback env ctx output w).2.log
        = (flushCallback env ctx output w).2.log ++ [Effect.sendDone] ∧
      (doneCallback env ctx output w).1 = r ∧
      (doneCallback env ctx output w).1 = (flushCallback env ctx output w).1 ∧
      ((doneCallback env ctx output w).2.log.drop w.log.length).count Effect.sendDone = 1 := by
  intro p r
  have hlog : (doneCallback env ctx output w).2.log
      = w.log ++ [Effect.postText Context.background p r, Effect.sendDone] := by
    simp [doneCallback, doneDeferred, flushCallback, p, r]
  refine ⟨hlog, ?_, rfl, rfl, ?_⟩
  · simp [doneCallback, doneDeferred]
  · rw [hlog, List.drop_left]
    simp [List.count_cons]

/-! ## Theorems: the streaming run -/

theorem step_iff_Step (env : Env) (s : Sys) (a : Action) (s1 : Sys) :
    step env s a = some s1 ↔ Step env s a s1 := by
  constructor
  · intro h
    cases a
    case start =>
      simp only [step] at h
      split at h
      · rename_i hpc hph; cases h; exact Step.start s hpc hph
      · cases h
    case signal =>
      simp only [step] at h
      split at h
      · rename_i hpc; cases h; exact Step.signal s hpc
      · cases h
    case wait =>
      simp only [step] at h
      split at h
      · rename_i hpc heof; cases h; exact Step.wait s hpc heof
      · cases h
    case cancel =>
      simp only [step] at h
      split at h
      · rename_i hpc; cases h; exact Step.cancel s hpc
      · cases h
    case handoff =>
      simp only [step] at h
      split at h
      · rename_i ret hpc hph; cases h; exact Step.handoff s ret hpc hph
      · cases h
    case read =>
      simp only [step, schedStep] at h
      split at h
      · rename_i u rest hph hin; cases h; exact Step.read s u rest hph hin
      · cases h
    case endOfInput =>
      simp only [step, schedStep] at h
      split at h
      · rename_i hph hin heof; cases h; exact Step.endOfInput s hph hin heof
      · cases h
    case tick =>
      simp only [step, schedStep] at h
      split at h
      · rename_i hph
        split at h
        · rename_i hbuf; cases h; exact Step.tickEmpty s hph hbuf
        · rename_i hbuf; cases h; exact Step.tickFlush s hph hbuf
      · cases h
    case complete =>
      simp only [step, schedStep] at h
      split at h
      · rename_i hph
        split at h
        · rename_i hgo; cases h; exact Step.complete s hph hgo
        · cases h
      · cases h
  · intro h
    cases h <;> simp_all [step, schedStep]

/-- The steps `complete` and `handoff` together are one invocation of `doneCallback` on
the batch: they leave its effects and hand its return value to the scheduler. -/
theorem complete_handoff_is_doneCallback (env : Env) (s : Sys)
    (hph : s.phase = Phase.running) (hpc : s.pc = MainPc.recvDone)
    (hc : s.cancelled = true) :
    ∃ s1, exec env s [Action.complete, Action.handoff] = some s1 ∧
      s1.shared = (doneCallback env s.ctx s.buf s.shared).2 ∧
      s1.phase = Phase.stopped (doneCallback env s.ctx s.buf s.shared).1 ∧
      s1.calls = s.calls ++ [Call.done s.buf] ∧
      s1.pc = MainPc.returned ExitCodeOK := by
  simp [exec, step, schedStep, hph, hpc, hc, doneCallback]

theorem exec_append (env : Env) (s : Sys) (xs ys : List Action) :
    exec env s (xs ++ ys) = (exec env s xs).bind (fun m => exec env m ys) := by
  induction xs generalizing s with
  | nil => rfl
  | cons a rest ih =>
    simp only [List.cons_append, exec]
    cases step env s a with
    | none => rfl
    | some m => exact ih m

/-- Invariant principle: a property of (steps taken, state) that holds initially and
is kept by every enabled step holds after every executable sequence of steps. -/
theorem exec_induction (env : Env) (s0 : Sys) (P : List Action → Sys → Prop)
    (h0 : P [] s0)
    (hstep : ∀ tr s a s1, exec env s0 tr = some s → P tr s → Step env s a s1 →
      P (tr ++ [a]) s1) :
    ∀ script s, exec env s0 script = some s → P script s := by
  intro script
  induction script using List.reverseRecOn with
  | nil =>
    intro s h
    simp only [exec] at h
    cases h
    exact h0
  | append_singleton tr a ih =>
    intro s h
    rw [exec_append] at h
    cases hm : exec env s0 tr with
    | none => rw [hm] at h; cases h
    | some m =>
      rw [hm] at h
      simp only [Option.bind, exec] at h
      cases hs : step env m a with
      | none => rw [hs] at h; cases h
      | some s1 =>
        rw [hs] at h
        cases h
        exact hstep tr m a s (hm) (ih m hm) ((step_iff_Step env m a s).1 hs)

theorem flushCallback_log (env : Env) (ctx : Context) (output : String) (w : Shared) :
    (flushCallback env ctx output w).2.log
      = w.log ++ [Effect.postText Context.background { w.param with Text := output }
          (flushCallback env ctx output w).1] := rfl

theorem flushCallback_count_sendDone (env : Env) (ctx : Context) (output : String)
    (w : Shared) :
    (flushCallback env ctx output w).2.log.count Effect.sendDone
      = w.log.count Effect.sendDone := by
  rw [flushCallback_log]
  simp [List.count_append, List.count_cons]

theorem pcTrace_mono (tr : List Action) (a : Action) (pc : MainPc)
    (h : PcTrace tr pc) : PcTrace (tr ++ [a]) pc := by
  have hsub := List.sublist_append_left tr [a]
  cases pc with
  | start => trivial
  | select => exact List.Sublist.trans h hsub
  | cancel =>
    obtain ⟨race, hr, hs⟩ := h
    exact ⟨race, hr, List.Sublist.trans hs hsub⟩
  | recvDone =>
    obtain ⟨race, hr, hs⟩ := h
    exact ⟨race, hr, List.Sublist.trans hs hsub⟩
  | returned code =>
    obtain ⟨hc, race, hr, hs⟩ := h
    exact ⟨hc, race, hr, List.Sublist.trans hs hsub⟩

theorem pcTrace_reachable (env : Env) (conf : Config) (input : List String) :
    ∀ script s, exec env (initSys conf input) script = some s → PcTrace script s.pc := by
  apply exec_induction
  · trivial
  · intro tr s a s1 _ hP hst
    cases hst with
    | start hpc hph =>
      show List.Sublist [Action.start] (tr ++ [Action.start])
      exact List.sublist_append_right tr [Action.start]
    | signal hpc =>
      rw [hpc] at hP
      exact ⟨Action.signal, Or.inl rfl, List.Sublist.append hP (List.Sublist.refl _)⟩
    | wait hpc heof =>
      rw [hpc] at hP
      exact ⟨Action.wait, Or.inr rfl, List.Sublist.append hP (List.Sublist.refl _)⟩
    | cancel hpc =>
      rw [hpc] at hP
      obtain ⟨race, hr, hs⟩ := hP
      exact ⟨race, hr, List.Sublist.append hs (List.Sublist.refl [Action.cancel])⟩
    | handoff ret hpc hph =>
      rw [hpc] at hP
      obtain ⟨race, hr, hs⟩ := hP
      exact ⟨rfl, race, hr, List.Sublist.append hs (List.Sublist.refl [Action.handoff])⟩
    | read u rest hph hin => exact pcTrace_mono tr _ _ hP
    | endOfInput hph hin heof => exact pcTrace_mono tr _ _ hP
    | tickEmpty hph hbuf => exact pcTrace_mono tr _ _ hP
    | tickFlush hph hbuf => exact pcTrace_mono tr _ _ hP
    | complete hph hgo => exact pcTrace_mono tr _ _ hP

theorem controlInv_reachable (env : Env) (conf : Config) (input : List String) :
    ∀ script s, exec env (initSys conf input) script = some s → ControlInv script s := by
  apply exec_induction
  · simp [ControlInv, initSys, MainPc.isReturned, Phase.isStopped]
  · intro tr s a s1 _ hP hst
    obtain ⟨h1, h2, h3, h4, h5⟩ := hP
    cases hst with
    | start hpc hph =>
      simp_all [ControlInv, MainPc.isReturned, Phase.isStopped, List.count_append]
    | signal hpc =>
      simp_all [ControlInv, MainPc.isReturned, Phase.isStopped, List.count_append]
    | wait hpc heof =>
      simp_all [ControlInv, MainPc.isReturned, Phase.isStopped, List.count_append]
    | cancel hpc =>
      simp_all [ControlInv, MainPc.isReturned, Phase.isStopped, List.count_append]
    | handoff ret hpc hph =>
      simp_all [ControlInv, MainPc.isReturned, Phase.isStopped, List.count_append,
        doneDeferred]
    | read u rest hph hin =>
      simp_all [ControlInv, MainPc.isReturned, Phase.isStopped, List.count_append]
    | endOfInput hph hin heof =>
      simp_all [ControlInv, MainPc.isReturned, Phase.isStopped, List.count_append]
    | tickEmpty hph hbuf =>
      simp_all [ControlInv, MainPc.isReturned, Phase.isStopped, List.count_append]
    | tickFlush hph hbuf =>
      simp_all [ControlInv, MainPc.isReturned, Phase.isStopped, List.count_append,
        flushCallback_count_sendDone]
    | complete hph hgo =>
      simp_all [ControlInv, MainPc.isReturned, Phase.isStopped, List.count_append,
        flushCallback_count_sendDone]

theorem concat_append (xs ys : List String) :
    concat (xs ++ ys) = concat xs ++ concat ys := by
  induction xs with
  | nil => simp [concat]
  | cons x rest ih => simp [concat, ih, String.append_assoc]

theorem concat_snoc (xs : List String) (x : String) :
    concat (xs ++ [x]) = concat xs ++ x := by
  rw [concat_append]
  simp [concat]

theorem payloads_snoc (calls : List Call) (c : Call) :
    payloads (calls ++ [c]) = payloads calls ++ [c.payload] := by
  simp [payloads]

theorem postedTexts_flushCallback (env : Env) (ctx : Context) (output : String)
    (w : Shared) :
    postedTexts (flushCallback env ctx output w).2.log = postedTexts w.log ++ [output] := by
  rw [flushCallback_log]
  simp [postedTexts, List.filterMap_append, Effect.text]

theorem postedTexts_doneDeferred (w : Shared) :
    postedTexts (doneDeferred w).log = postedTexts w.log := by
  simp [postedTexts, doneDeferred, List.filterMap_append, Effect.text]

theorem flushesOnly_snoc (calls : List Call) (p : String) (h : flushesOnly calls) :
    flushesOnly (calls ++ [Call.flush p]) := by
  intro c hc
  rcases List.mem_append.1 hc with h1 | h1
  · exact h c h1
  · exact ⟨p, by simpa using h1⟩

theorem dataInv_reachable (env : Env) (conf : Config) (input : List String) :
    ∀ script s, exec env (initSys conf input) script = some s → DataInv input s := by
  apply exec_induction env (initSys conf input) (fun _ s => DataInv input s)
  · simp [DataInv, initSys, concat, payloads, postedTexts, Phase.completing, flushesOnly]
  · intro tr s a s1 _ hP hst
    obtain ⟨h1, h2, h3, h4, h5, h6, h7⟩ := hP
    cases hst with
    | start hpc hph =>
      simp_all [DataInv, Phase.completing]
    | signal hpc => exact ⟨h1, h2, h3, h4, h5, h6, h7⟩
    | wait hpc heof => exact ⟨h1, h2, h3, h4, h5, h6, h7⟩
    | cancel hpc => exact ⟨h1, h2, h3, h4, h5, h6, h7⟩
    | handoff ret hpc hph =>
      rw [hph] at h4 h5 h6
      refine ⟨h1, h2, h3, fun _ => h4 rfl, fun h => by simp [Phase.completing] at h,
        fun _ => h6 rfl, ?_⟩
      show postedTexts (doneDeferred s.shared).log = payloads s.calls
      rw [postedTexts_doneDeferred]; exact h7
    | read u rest hph hin =>
      rw [hph] at h4 h5 h6
      refine ⟨?_, ?_, ?_, fun h => ?_, fun _ => h5 rfl, fun h => ?_, h7⟩
      · show (s.out ++ [u]) ++ rest = input
        rw [← h1, hin]; simp
      · show concat (payloads s.calls) ++ (s.buf ++ u) = concat (s.out ++ [u])
        rw [concat_snoc, ← h2, String.append_assoc]
      · intro he
        have := h3 he
        rw [hin] at this
        cases this
      · simp [hph, Phase.completing] at h
      · simp [hph, Phase.completing] at h
    | endOfInput hph hin heof =>
      exact ⟨h1, h2, fun _ => hin, h4, h5, h6, h7⟩
    | tickEmpty hph hbuf => exact ⟨h1, h2, h3, h4, h5, h6, h7⟩
    | tickFlush hph hbuf =>
      rw [hph] at h4 h5 h6
      refine ⟨h1, ?_, h3, fun _ => rfl, fun _ => ?_, fun h => ?_, ?_⟩
      · show concat (payloads (s.calls ++ [Call.flush s.buf])) ++ "" = concat s.out
        rw [payloads_snoc, concat_snoc, String.append_empty]
        exact h2
      · exact flushesOnly_snoc _ _ (h5 rfl)
      · simp [hph, Phase.completing] at h
      · show postedTexts (flushCallback env s.ctx s.buf s.shared).2.log
          = payloads (s.calls ++ [Call.flush s.buf])
        rw [postedTexts_flushCallback, payloads_snoc, h7]; rfl
    | complete hph hgo =>
      rw [hph] at h4 h5 h6
      refine ⟨h1, ?_, h3, fun _ => rfl, fun h => by simp [Phase.completing] at h,
        fun _ => ?_, ?_⟩
      · show concat (payloads (s.calls ++ [Call.done s.buf])) ++ "" = concat s.out
        rw [payloads_snoc, concat_snoc, String.append_empty]
        exact h2
      · exact ⟨s.calls, s.buf, rfl, h5 rfl⟩
      · show postedTexts (flushCallback env s.ctx s.buf s.shared).2.log
          = payloads (s.calls ++ [Call.done s.buf])
        rw [postedTexts_flushCallback, payloads_snoc, h7]; rfl

/-! ## Theorems: the claims about the streaming run -/

theorem Run_streamed (env : Env) (args input : List String) (script : List Action)
    (code : Int) (s : Sys) (h : Run env args input script = RunEnd.streamed code s) :
    ∃ conf, RunFront env args = Front.stream conf ∧
      exec env (initSys conf input) script = some s ∧ s.pc = MainPc.returned code := by
  unfold Run at h
  cases hf : RunFront env args with
  | exit c => rw [hf] at h; cases h
  | panic => rw [hf] at h; cases h
  | stream conf =>
    rw [hf] at h
    simp only at h
    cases he : exec env (initSys conf input) script with
    | none => rw [he] at h; cases h
    | some m =>
      rw [he] at h
      simp only at h
      cases hpc : m.pc with
      | returned c =>
        rw [hpc] at h
        simp only at h
        cases h
        exact ⟨conf, rfl, he, hpc⟩
      | start => rw [hpc] at h; cases h
      | select => rw [hpc] at h; cases h
      | cancel => rw [hpc] at h; cases h
      | recvDone => rw [hpc] at h; cases h

/-- C1: every execution of `Run` that enters streaming mode and returns has, in this
order, started the scheduler, taken one of the two raced events (interruption or the
scheduler's termination), called `cancel()` and received the completion signal on
`done`; the receive happened exactly once, one send on `done` was made, the context is
cancelled, and no execution returns from streaming mode without that receive. -/
theorem Run_returns_only_after_done (env : Env) (args input : List String)
    (script : List Action) (code : Int) (s : Sys)
    (h : Run env args input script = RunEnd.streamed code s) :
    (∃ race, isRace race ∧
      List.Sublist [Action.start, race, Action.cancel, Action.handoff] script) ∧
    script.count Action.handoff = 1 ∧
    s.shared.log.count Effect.sendDone = 1 ∧
    s.cancelled = true ∧
    (∀ tr code1 s1, Action.handoff ∉ tr →
      Run env args input tr ≠ RunEnd.streamed code1 s1) := by
  obtain ⟨conf, hf, he, hpc⟩ := Run_streamed env args input script code s h
  have hT := pcTrace_reachable env conf input script s he
  obtain ⟨-, -, h3, h4, h5⟩ := controlInv_reachable env conf input script s he
  rw [hpc] at hT h3 h4 h5
  refine ⟨hT.2, by simpa [MainPc.isReturned] using h5,
    by simpa [MainPc.isReturned] using h4, h3 (Or.inr rfl), ?_⟩
  intro tr code1 s1 hno hrun
  obtain ⟨conf1, hf1, he1, hpc1⟩ := Run_streamed env args input tr code1 s1 hrun
  obtain ⟨-, -, -, -, h51⟩ := controlInv_reachable env conf1 input tr s1 he1
  rw [hpc1] at h51
  have : tr.count Action.handoff = 0 := List.count_eq_zero_of_not_mem hno
  rw [this] at h51
  simp [MainPc.isReturned] at h51

theorem Run_returns_only_after_done_witness :
    (∃ race, isRace race ∧
      List.Sublist [Action.start, race, Action.cancel, Action.handoff] tickScript) ∧
    tickScript.count Action.handoff = 1 ∧
    tickFinal.shared.log.count Effect.sendDone = 1 ∧
    tickFinal.cancelled = true ∧
    (∀ tr code1 s1, Action.handoff ∉ tr →
      Run plainEnv urlArgs ["a\n", "b\n", "c\n"] tr ≠ RunEnd.streamed code1 s1) :=
  Run_returns_only_after_done plainEnv urlArgs ["a\n", "b\n", "c\n"] tickScript
    ExitCodeOK tickFinal (by decide)

/-- C3, as stated, fails: in a streaming run whose only post is the one made by
`doneCallback`, and that post fails with "status code: 500", `Run` returns
`ExitCodeOK`, which is zero. -/
theorem terminal_post_failure_returns_ok :
    Run failingEnv urlArgs ["a\n"] eofScript
      = RunEnd.streamed ExitCodeOK (eofFinal (some "status code: 500")) ∧
    (eofFinal (some "status code: 500")).calls = [Call.done "a\n"] ∧
    (eofFinal (some "status code: 500")).phase = Phase.stopped (some "status code: 500") ∧
    ((eofFinal (some "status code: 500")).shared.log.map Effect.failed) = [true, false] ∧
    ExitCodeOK = 0 := by
  decide

/-- C3, amended: a delivery failure never changes the exit code of a streaming run.
Every execution of `Run` that enters streaming mode and returns, returns `ExitCodeOK`,
whatever the results of the posts made by `flushCallback` and `doneCallback`. -/
theorem streaming_exit_code_ignores_delivery (env : Env) (args input : List String)
    (script : List Action) (code : Int) (s : Sys)
    (h : Run env args input script = RunEnd.streamed code s) :
    code = ExitCodeOK ∧ s.pc = MainPc.returned ExitCodeOK := by
  obtain ⟨conf, -, he, hpc⟩ := Run_streamed env args input script code s h
  have hT := pcTrace_reachable env conf input script s he
  rw [hpc] at hT
  exact ⟨hT.1, by rw [hpc, hT.1]⟩

theorem streaming_exit_code_ignores_delivery_witness :
    ExitCodeOK = ExitCodeOK ∧
    (eofFinal (some "status code: 500")).pc = MainPc.returned ExitCodeOK :=
  streaming_exit_code_ignores_delivery failingEnv urlArgs ["a\n"] eofScript ExitCodeOK
    (eofFinal (some "status code: 500")) (by decide)

/-- C4: in every streaming run that returns, the concatenation of the payloads passed
to `flushCallback` and `doneCallback`, in call order, equals the concatenation of what
was read from `inputStream`; what was read is a prefix of the input, and the whole
input when end-of-stream was met. The calls are flush calls followed by exactly one
completion call, and the texts posted are these payloads. -/
theorem payloads_concat_eq_input (env : Env) (args input : List String)
    (script : List Action) (code : Int) (s : Sys)
    (h : Run env args input script = RunEnd.streamed code s) :
    concat (payloads s.calls) = concat s.out ∧
    s.out ++ s.input = input ∧
    (s.eof = true → concat (payloads s.calls) = concat input) ∧
    (∃ fl p, s.calls = fl ++ [Call.done p] ∧ flushesOnly fl) ∧
    postedTexts s.shared.log = payloads s.calls := by
  obtain ⟨conf, -, he, hpc⟩ := Run_streamed env args input script code s h
  obtain ⟨d1, d2, d3, d4, -, d6, d7⟩ := dataInv_reachable env conf input script s he
  obtain ⟨-, c2, -, -, -⟩ := controlInv_reachable env conf input script s he
  rw [hpc] at c2
  have hcomp : s.phase.completing = true := by
    cases hph : s.phase with
    | stopped r => rfl
    | idle => rw [hph] at c2; simp [MainPc.isReturned, Phase.isStopped] at c2
    | running => rw [hph] at c2; simp [MainPc.isReturned, Phase.isStopped] at c2
    | draining r => rfl
  have hbuf := d4 hcomp
  rw [hbuf, String.append_empty] at d2
  refine ⟨d2, d1, fun heof => ?_, d6 hcomp, d7⟩
  have hin := d3 heof
  rw [hin, List.append_nil] at d1
  rw [d2, d1]

theorem payloads_concat_eq_input_witness :
    concat (payloads flushFinal.calls) = concat flushFinal.out ∧
    flushFinal.out ++ flushFinal.input = ["a\n", "b\n"] ∧
    (flushFinal.eof = true → concat (payloads flushFinal.calls)
      = concat ["a\n", "b\n"]) ∧
    (∃ fl p, flushFinal.calls = fl ++ [Call.done p] ∧ flushesOnly fl) ∧
    postedTexts flushFinal.shared.log = payloads flushFinal.calls :=
  payloads_concat_eq_input plainEnv urlArgs ["a\n", "b\n"] flushScript
    ExitCodeOK flushFinal (by decide)

/-- C5, as stated, fails: on the command line `notify_slack -slack-url URL`, without
configuration file, no channel is configured, and `Run` starts the scheduler, posts
with an empty channel and returns `ExitCodeOK`. -/
theorem missing_channel_run_starts_and_returns_ok :
    RunFront plainEnv urlArgs = Front.stream urlConf ∧
    urlConf.PrimaryChannel = "" ∧ urlConf.Channel = "" ∧
    Run plainEnv urlArgs ["a\n"] eofScript = RunEnd.streamed ExitCodeOK (eofFinal none) ∧
    Action.start ∈ eofScript ∧
    ExitCodeOK = 0 := by
  decide

/-- C5, amended: a missing channel is not fatal in streaming mode. For every run that
enters streaming mode with `PrimaryChannel` and `Channel` both empty, the `PostTextParam`
has an empty `Channel`, every execution that returns has called `ex.Start` and returns
`ExitCodeOK`, and for every input there is an execution that returns. -/
theorem missing_channel_not_fatal_in_streaming (env : Env) (args : List String)
    (conf : Config) (hfront : RunFront env args = Front.stream conf)
    (hprimary : conf.PrimaryChannel = "") (hchannel : conf.Channel = "") :
    (streamParam conf).Channel = "" ∧
    (∀ input script code s, Run env args input script = RunEnd.streamed code s →
      code = ExitCodeOK ∧ Action.start ∈ script) ∧
    (∀ input, ∃ s, Run env args input
      [Action.start, Action.signal, Action.cancel, Action.complete, Action.handoff]
        = RunEnd.streamed ExitCodeOK s) := by
  refine ⟨by simp [streamParam, streamChannel, hprimary, hchannel], ?_, ?_⟩
  · intro input script code s h
    obtain ⟨conf1, -, he, hpc⟩ := Run_streamed env args input script code s h
    have hT := pcTrace_reachable env conf1 input script s he
    rw [hpc] at hT
    obtain ⟨hc, race, -, hs⟩ := hT
    refine ⟨hc, ?_⟩
    exact List.Sublist.subset hs (by simp)
  · intro input
    simp [Run, hfront, exec, step, schedStep, initSys]

theorem missing_channel_not_fatal_in_streaming_witness :
    (streamParam urlConf).Channel = "" ∧
    (∀ input script code s, Run plainEnv urlArgs input script = RunEnd.streamed code s →
      code = ExitCodeOK ∧ Action.start ∈ script) ∧
    (∀ input, ∃ s, Run plainEnv urlArgs input
      [Action.start, Action.signal, Action.cancel, Action.complete, Action.handoff]
        = RunEnd.streamed ExitCodeOK s) :=
  missing_channel_not_fatal_in_streaming plainEnv urlArgs urlConf (by decide) rfl rfl

end NotifySlack
